import Mathlib

/-!
# Verification of the task-manager core (task data model and persistence)

Shallow embedding of the Rust sources of a command-line task manager:
`src/main.rs` (command handlers), `src/app/storage.rs` (load/save),
`src/app/error.rs` (`AppError`).  Rust `u32` task ids are modelled as `Nat`
(the spec treats the id space as unbounded in design), `Vec<Task>` as
`List Task`, `Result<T, AppError>` as `Except AppError T`.

The repository's `src/app/models.rs` (the `Task` struct, `Task::new`,
`Task::mark_completion`, the `TaskList` wrapper and their serde derives) is
declared in `src/app/mod.rs` but is not among the available source files;
those definitions are modelled from the spec and marked as such.
-/

namespace TaskManager

/-- A calendar date with no time component (`chrono::NaiveDate`).  Its
internal representation is third-party; we model it as a plain
year/month/day record, compared structurally. -/
structure NaiveDate where
  year : Int
  month : Nat
  day : Nat
deriving DecidableEq, Repr

/-- Modelled from the spec: the `Task` struct of the missing
`src/app/models.rs` — `id` (positive integer, store-assigned),
`description` (text), `due_date` (optional calendar date), `completed`
(boolean). -/
structure Task where
  id : Nat
  description : String
  due_date : Option NaiveDate
  completed : Bool
deriving DecidableEq, Repr

/-- Modelled from the spec: `Task::new` of the missing `src/app/models.rs`.
Creation takes the store-assigned id, the description and the optional due
date; `completed` defaults to `false` at creation. -/
def Task.new (id : Nat) (description : String) (due_date : Option NaiveDate) : Task :=
  { id := id, description := description, due_date := due_date, completed := false }

/-- Modelled from the spec: `Task::mark_completion` of the missing
`src/app/models.rs`.  Sets the `completed` field to the given status and
changes nothing else (tasks are "mutated only by the completion-toggle
operation (`completed` field)"). -/
def Task.mark_completion (t : Task) (status : Bool) : Task :=
  { t with completed := status }

/-- `AppError` from `src/app/error.rs`.  Third-party payloads
(`io::Error`, `toml::de::Error`, `toml::ser::Error`) are carried as their
display strings. -/
inductive AppError where
  | io (cause : String)
  | tomlDeserialize (cause : String)
  | tomlSerialize (cause : String)
  | taskNotFound (id : Nat)
  | invalidArgument (msg : String)
  | unexpected (msg : String)
deriving DecidableEq, Repr

/-- `tasks.iter().map(|t| t.id).max().unwrap_or(0)` from `handle_add_task`
(`src/main.rs:55`): the maximum id in the collection, `0` when it is
empty. -/
def max_id : List Task → Nat
  | [] => 0
  | t :: ts => max t.id (max_id ts)

/-- `handle_add_task` (`src/main.rs:50-63`): computes
`new_id = max_id tasks + 1`, builds `Task::new new_id description due_date`
and pushes it onto the end of the list.  The Rust function always returns
`Ok(())`; we return the updated list. -/
def handle_add_task (tasks : List Task) (description : String)
    (due_date : Option NaiveDate) : Except AppError (List Task) :=
  let new_id := max_id tasks + 1
  .ok (tasks ++ [Task.new new_id description due_date])

/-- The `tasks.iter_mut().find(|t| t.id == id)` + `task.mark_completion`
step of `handle_mark_task_completion` (`src/main.rs:97-118`): update the
first task whose id matches, `none` when no task matches. -/
def mark_first : List Task → Nat → Bool → Option (List Task)
  | [], _, _ => none
  | t :: ts, id, status =>
    if t.id = id then
      some (t.mark_completion status :: ts)
    else
      match mark_first ts id status with
      | some ts2 => some (t :: ts2)
      | none => none

/-- `handle_mark_task_completion` (`src/main.rs:97-118`): finds the first
task with the given id and sets its completion status; fails with
`AppError::TaskNotFound(id)` when no task has that id. -/
def handle_mark_task_completion (tasks : List Task) (id : Nat)
    (status : Bool) : Except AppError (List Task) :=
  match mark_first tasks id status with
  | some ts2 => .ok ts2
  | none => .error (.taskNotFound id)

/-- `handle_remove_task` (`src/main.rs:121-132`):
`tasks.retain(|task| task.id != id)` keeps exactly the tasks whose id
differs from `id`; success iff the length shrank, otherwise
`AppError::TaskNotFound(id)`. -/
def handle_remove_task (tasks : List Task) (id : Nat) :
    Except AppError (List Task) :=
  let remaining := tasks.filter (fun task => task.id ≠ id)
  if remaining.length < tasks.length then
    .ok remaining
  else
    .error (.taskNotFound id)

/-- `handle_clear_tasks` (`src/main.rs:136-146`): without the `--yes`
confirmation it only prints a prompt and returns `Ok(())` with the list
untouched (reported count `none`); with confirmation it empties the list
and reports `some tasks.length` ("Cleared {} tasks.").  It never errors. -/
def handle_clear_tasks (tasks : List Task) (confirmed : Bool) :
    List Task × Option Nat :=
  if !confirmed then
    (tasks, none)
  else
    ([], some tasks.length)

/-- A TOML value, at the abstraction level the repository manipulates it:
the concrete text syntax is produced and consumed by the third-party
`toml` crate.  A date value stands for the `YYYY-MM-DD` date string named
by the spec, handled atomically since its formatting and parsing live in
third-party `chrono`/serde code, not in this repository. -/
inductive TomlValue where
  | integer (n : Int)
  | string (s : String)
  | boolean (b : Bool)
  | date (d : NaiveDate)
  | array (vs : List TomlValue)
  | table (kvs : List (String × TomlValue))

/-- Whether a TOML table carries the given key. -/
def tableHasKey (k : String) : TomlValue → Bool
  | .table kvs => kvs.any (fun p => p.1 = k)
  | _ => false

/-- Modelled from the spec: serialization of one task record per the serde
derives of the missing `src/app/models.rs` — the four `Task` fields under
their own names, with an unset `due_date` omitted from the record rather
than written as a null placeholder. -/
def encode_task (t : Task) : TomlValue :=
  .table
    ([("id", .integer t.id), ("description", .string t.description)] ++
     (match t.due_date with
      | none => []
      | some d => [("due_date", .date d)]) ++
     [("completed", .boolean t.completed)])

/-- Modelled from the spec: serialization of the `TaskList` wrapper of the
missing `src/app/models.rs` — "a single top-level mapping with one key
whose value is an ordered sequence of task records". -/
def encode_task_list (tasks : List Task) : TomlValue :=
  .table [("tasks", .array (tasks.map encode_task))]

/-- Modelled from the spec: deserialization of one task record, the
inverse direction of the serde derives of the missing `src/app/models.rs`.
`id` must be a non-negative integer, `description` a string, `completed`
a boolean; `due_date` is optional and absent means no due date.  Any other
shape is a deserialization failure. -/
def decode_task : TomlValue → Option Task
  | .table [("id", .integer n), ("description", .string s),
            ("completed", .boolean b)] =>
    if 0 ≤ n then some ⟨n.toNat, s, none, b⟩ else none
  | .table [("id", .integer n), ("description", .string s),
            ("due_date", .date d), ("completed", .boolean b)] =>
    if 0 ≤ n then some ⟨n.toNat, s, some d, b⟩ else none
  | _ => none

/-- Deserialize each element of the sequence of task records; any bad
record fails the whole sequence (no partial load). -/
def decode_tasks : List TomlValue → Option (List Task)
  | [] => some []
  | v :: vs =>
    match decode_task v, decode_tasks vs with
    | some t, some ts => some (t :: ts)
    | _, _ => none

/-- Modelled from the spec: deserialization of the `TaskList` wrapper —
the top-level table must hold the one `tasks` key with an array of task
records. -/
def decode_task_list : TomlValue → Option (List Task)
  | .table [("tasks", .array vs)] => decode_tasks vs
  | _ => none

/-- The state of the backing `tasks.toml` file as `load_tasks` observes
it: absent, present but rejected by the third-party TOML parser (with the
parser's error message), or present and parsed into a TOML value. -/
inductive FileState where
  | absent
  | malformed (msg : String)
  | wellFormed (v : TomlValue)

/-- `load_tasks` (`src/app/storage.rs:28-52`): a missing file yields the
empty list; a file the TOML parser rejects, or whose parsed value does not
deserialize into a `TaskList`, fails with `AppError::TomlDeserialize`
carrying the underlying cause; otherwise the deserialized tasks are
returned.  (The `fs::read_to_string` I/O error path is outside this
model's file-state abstraction.) -/
def load_tasks : FileState → Except AppError (List Task)
  | .absent => .ok []
  | .malformed msg => .error (.tomlDeserialize msg)
  | .wellFormed v =>
    match decode_task_list v with
    | some ts => .ok ts
    | none => .error (.tomlDeserialize "invalid type: data did not match the TaskList shape")

/-- `save_tasks` (`src/app/storage.rs:65-84`): wraps the tasks in a
`TaskList`, serializes it and overwrites the backing file in full.
Encoding of well-formed in-memory data is total, so the
`AppError::TomlSerialize` path does not arise; the `fs::write` I/O error
path is outside this model's file-state abstraction. -/
def save_tasks (tasks : List Task) : FileState :=
  .wellFormed (encode_task_list tasks)

/-- The command surface of `src/app/cli.rs` (`Commands`), with the parsed
payloads the handlers receive. -/
inductive Commands where
  | add (description : String) (due : Option NaiveDate)
  | list (all : Bool)
  | complete (id : Nat)
  | undone (id : Nat)
  | remove (id : Nat)
  | clear (yes : Bool)

/-- The `match cli.command` dispatch of `main` (`src/main.rs:21-40`):
how one parsed command transforms the loaded task list.  `list` only
prints. -/
def dispatch (tasks : List Task) : Commands → Except AppError (List Task)
  | .add description due => handle_add_task tasks description due
  | .list _ => .ok tasks
  | .complete id => handle_mark_task_completion tasks id true
  | .undone id => handle_mark_task_completion tasks id false
  | .remove id => handle_remove_task tasks id
  | .clear yes => .ok (handle_clear_tasks tasks yes).1

/-- `main` (`src/main.rs:11-46`): load the tasks, run the command's
handler, save the resulting list back; any handler error aborts the
invocation before the save. -/
def main_run (fs : FileState) (cmd : Commands) : Except AppError FileState := do
  let tasks ← load_tasks fs
  let tasks2 ← dispatch tasks cmd
  pure (save_tasks tasks2)

/-- Iterated `add` invocations: run `handle_add_task` once per
description/due-date pair, threading the list through.  (`handle_add_task`
always succeeds; the error branch is unreachable.) -/
def run_adds (tasks : List Task) : List (String × Option NaiveDate) → List Task
  | [] => tasks
  | p :: ps =>
    match handle_add_task tasks p.1 p.2 with
    | .ok ts2 => run_adds ts2 ps
    | .error _ => tasks

/-! ## Helper lemmas -/

theorem le_max_id {tasks : List Task} {t : Task} (h : t ∈ tasks) :
    t.id ≤ max_id tasks := by
  induction tasks with
  | nil => cases h
  | cons u ts ih =>
    rcases List.mem_cons.1 h with h | h
    · subst h; exact le_max_left _ _
    · exact le_trans (ih h) (le_max_right _ _)

theorem max_id_mem {tasks : List Task} (h : tasks ≠ []) :
    ∃ t ∈ tasks, t.id = max_id tasks := by
  induction tasks with
  | nil => exact absurd rfl h
  | cons u ts ih =>
    rcases eq_or_ne ts [] with hts | hts
    · subst hts
      exact ⟨u, List.mem_cons_self u [], by simp [max_id]⟩
    · obtain ⟨t, ht, hid⟩ := ih hts
      rcases le_total (max_id ts) u.id with hle | hle
      · exact ⟨u, List.mem_cons_self u ts, by simp [max_id, max_eq_left hle]⟩
      · exact ⟨t, List.mem_cons_of_mem _ ht, by simp [hid, max_id, max_eq_right hle]⟩

theorem max_id_append (l1 l2 : List Task) :
    max_id (l1 ++ l2) = max (max_id l1) (max_id l2) := by
  induction l1 with
  | nil => simp [max_id]
  | cons u ts ih => simp [max_id, ih, max_assoc]

theorem decode_encode_task (t : Task) : decode_task (encode_task t) = some t := by
  obtain ⟨i, s, d, b⟩ := t
  cases d <;> simp [encode_task, decode_task]

theorem decode_encode_tasks (tasks : List Task) :
    decode_tasks (tasks.map encode_task) = some tasks := by
  induction tasks with
  | nil => rfl
  | cons t ts ih => simp [decode_tasks, decode_encode_task, ih]

theorem load_save (tasks : List Task) :
    load_tasks (save_tasks tasks) = .ok tasks := by
  simp [load_tasks, save_tasks, decode_task_list, encode_task_list, decode_encode_tasks]

/-- Splits a list at the first task carrying the given id. -/
theorem exists_first_match {tasks : List Task} {id : Nat}
    (h : ∃ t ∈ tasks, t.id = id) :
    ∃ l1 t l2, tasks = l1 ++ t :: l2 ∧ t.id = id ∧ ∀ u ∈ l1, u.id ≠ id := by
  induction tasks with
  | nil => simp at h
  | cons u ts ih =>
    by_cases hu : u.id = id
    · exact ⟨[], u, ts, rfl, hu, by simp⟩
    · obtain ⟨t, ht, hid⟩ := h
      rcases List.mem_cons.1 ht with rfl | ht
      · exact absurd hid hu
      · obtain ⟨l1, t', l2, h1, h2, h3⟩ := ih ⟨t, ht, hid⟩
        exact ⟨u :: l1, t', l2, by simp [h1], h2, by
          intro v hv
          rcases List.mem_cons.1 hv with rfl | hv
          · exact hu
          · exact h3 v hv⟩

theorem mark_first_at {l1 l2 : List Task} {t : Task} {id : Nat} (b : Bool)
    (ht : t.id = id) (hl1 : ∀ u ∈ l1, u.id ≠ id) :
    mark_first (l1 ++ t :: l2) id b = some (l1 ++ t.mark_completion b :: l2) := by
  induction l1 with
  | nil => simp [mark_first, ht]
  | cons u us ih =>
    have hu : u.id ≠ id := hl1 u (List.mem_cons_self u us)
    have := ih fun v hv => hl1 v (List.mem_cons_of_mem _ hv)
    simp [mark_first, hu, this]

theorem mark_first_eq_none {tasks : List Task} {id : Nat} {b : Bool} :
    mark_first tasks id b = none ↔ ∀ t ∈ tasks, t.id ≠ id := by
  induction tasks with
  | nil => simp [mark_first]
  | cons u ts ih =>
    by_cases hu : u.id = id
    · simp [mark_first, hu]
    · have hstep : mark_first (u :: ts) id b =
          (match mark_first ts id b with
           | some ts2 => some (u :: ts2)
           | none => none) := by simp [mark_first, hu]
      rw [hstep]
      cases hm : mark_first ts id b with
      | some ts2 =>
        constructor
        · intro h; exact absurd h (by simp)
        · intro h
          have hnone := ih.2 fun t ht => h t (List.mem_cons_of_mem _ ht)
          rw [hm] at hnone
          exact absurd hnone (by simp)
      | none =>
        constructor
        · intro _ t ht
          rcases List.mem_cons.1 ht with rfl | ht
          · exact hu
          · exact ih.1 hm t ht
        · intro _; rfl

theorem mark_first_map_id {tasks ts2 : List Task} {id : Nat} {b : Bool}
    (h : mark_first tasks id b = some ts2) :
    ts2.map Task.id = tasks.map Task.id := by
  induction tasks generalizing ts2 with
  | nil => simp [mark_first] at h
  | cons u ts ih =>
    by_cases hu : u.id = id
    · simp [mark_first, hu] at h
      subst h
      simp [Task.mark_completion]
    · simp only [mark_first, if_neg hu] at h
      cases hm : mark_first ts id b with
      | some ts3 =>
        rw [hm] at h
        simp at h
        subst h
        simp [ih hm]
      | none => rw [hm] at h; simp at h

theorem filter_ne_of_forall {tasks : List Task} {id : Nat}
    (h : ∀ t ∈ tasks, t.id ≠ id) :
    tasks.filter (fun task => task.id ≠ id) = tasks := by
  induction tasks with
  | nil => rfl
  | cons u ts ih =>
    have hu : u.id ≠ id := h u (List.mem_cons_self u ts)
    rw [List.filter_cons, if_pos (by simpa using hu),
      ih fun t ht => h t (List.mem_cons_of_mem _ ht)]

theorem filter_length_lt_of_mem {tasks : List Task} {t : Task} {id : Nat}
    (ht : t ∈ tasks) (hid : t.id = id) :
    (tasks.filter (fun task => task.id ≠ id)).length < tasks.length := by
  induction tasks with
  | nil => cases ht
  | cons u ts ih =>
    rcases List.mem_cons.1 ht with rfl | hmem
    · rw [List.filter_cons, if_neg (by simp [hid])]
      exact Nat.lt_succ_of_le (List.length_filter_le _ _)
    · by_cases hu : u.id = id
      · rw [List.filter_cons, if_neg (by simp [hu])]
        exact Nat.lt_succ_of_le (List.length_filter_le _ _)
      · rw [List.filter_cons, if_pos (by simpa using hu), List.length_cons,
          List.length_cons]
        exact Nat.succ_lt_succ (ih hmem)

/-- Structure of an iterated sequence of `add` invocations: the original
tasks stay in place, and the appended tasks carry strictly increasing ids,
each above every id that was present before the sequence started. -/
theorem run_adds_spec (ps : List (String × Option NaiveDate)) (tasks : List Task) :
    ∃ extra : List Task,
      run_adds tasks ps = tasks ++ extra ∧
      List.Chain' (· < ·) (extra.map Task.id) ∧
      ∀ t ∈ extra, max_id tasks < t.id := by
  induction ps generalizing tasks with
  | nil => exact ⟨[], by simp [run_adds], by simp, by simp⟩
  | cons p ps ih =>
    set new : Task := Task.new (max_id tasks + 1) p.1 p.2 with hnew
    have hrun : run_adds tasks (p :: ps) = run_adds (tasks ++ [new]) ps := by
      simp [run_adds, handle_add_task]
    obtain ⟨extra, h1, h2, h3⟩ := ih (tasks ++ [new])
    have hnewid : new.id = max_id tasks + 1 := rfl
    have hmax : max_id (tasks ++ [new]) = new.id := by
      rw [max_id_append]
      simp only [max_id]
      omega
    refine ⟨new :: extra, ?_, ?_, ?_⟩
    · rw [hrun, h1]
      simp
    · rw [List.map_cons, List.chain'_cons']
      refine ⟨?_, h2⟩
      intro y hy
      obtain ⟨t, ht, rfl⟩ := List.exists_of_mem_map (List.mem_of_mem_head? hy)
      have := h3 t ht
      omega
    · intro t ht
      rcases List.mem_cons.1 ht with rfl | ht
      · omega
      · have := h3 t ht
        omega

/-! ## Claims -/

/-- C1: saving any `TaskCollection` and loading it back yields a
collection equal to the original in order, ids, descriptions, due dates
and completion flags, and a task without a due date is serialized with the
`due_date` field omitted rather than written as a null placeholder. -/
theorem c1_save_load_round_trip :
    (∀ C : List Task, load_tasks (save_tasks C) = .ok C) ∧
    (∀ t : Task, t.due_date = none →
      tableHasKey "due_date" (encode_task t) = false) := by
  constructor
  · exact load_save
  · intro t h
    obtain ⟨i, s, d, b⟩ := t
    cases d with
    | none => rfl
    | some d => cases h

/-- Witness for C1 at a concrete one-task collection without a due date. -/
theorem c1_witness :
    load_tasks (save_tasks [Task.new 1 "Buy milk" none]) =
      .ok [Task.new 1 "Buy milk" none] ∧
    tableHasKey "due_date" (encode_task (Task.new 1 "Buy milk" none)) = false :=
  ⟨c1_save_load_round_trip.1 [Task.new 1 "Buy milk" none],
   c1_save_load_round_trip.2 (Task.new 1 "Buy milk" none) rfl⟩

/-- C2: `handle_add_task` appends one new task at the end, leaving every
existing task unchanged; the new task carries the given description and
due date, `completed = false`, and the id `(max existing id, or 0 if
empty) + 1` — so id `1` on an empty collection and, on a non-empty one,
one more than the id of a maximal existing task; the operation always
succeeds. -/
theorem c2_handle_add_task_postcondition :
    ∀ (tasks : List Task) (description : String) (due_date : Option NaiveDate),
    ∃ newTask : Task,
      handle_add_task tasks description due_date = .ok (tasks ++ [newTask]) ∧
      newTask.description = description ∧
      newTask.due_date = due_date ∧
      newTask.completed = false ∧
      newTask.id = max_id tasks + 1 ∧
      (tasks = [] → newTask.id = 1) ∧
      (∀ t ∈ tasks, t.id < newTask.id) ∧
      (tasks ≠ [] → ∃ t ∈ tasks, newTask.id = t.id + 1 ∧ ∀ u ∈ tasks, u.id ≤ t.id) := by
  intro tasks description due_date
  refine ⟨Task.new (max_id tasks + 1) description due_date,
    rfl, rfl, rfl, rfl, rfl, ?_, ?_, ?_⟩
  · rintro rfl; rfl
  · intro t ht
    exact Nat.lt_succ_of_le (le_max_id ht)
  · intro hne
    obtain ⟨t, ht, hid⟩ := max_id_mem hne
    exact ⟨t, ht, by simp [Task.new, hid], fun u hu => hid ▸ le_max_id hu⟩

/-- Witness for C2: adding to the empty collection yields id 1, the given
fields, `completed = false`. -/
theorem c2_witness :
    ∃ newTask : Task,
      handle_add_task [] "Buy milk" none = .ok ([] ++ [newTask]) ∧
      newTask.description = "Buy milk" ∧
      newTask.due_date = none ∧
      newTask.completed = false ∧
      newTask.id = 1 := by
  obtain ⟨nt, h1, h2, h3, h4, _, h6, _, _⟩ :=
    c2_handle_add_task_postcondition [] "Buy milk" none
  exact ⟨nt, h1, h2, h3, h4, h6 rfl⟩

/-- C9: with confirmation, `handle_clear_tasks` on a collection of N
tasks reports N tasks removed and leaves the collection empty; on the
empty collection it reports 0. -/
theorem c9_clear_confirmed :
    ∀ tasks : List Task,
      handle_clear_tasks tasks true = ([], some tasks.length) ∧
      handle_clear_tasks ([] : List Task) true = ([], some 0) := by
  intro tasks
  exact ⟨rfl, rfl⟩

/-- C10: without the confirmation flag, the clear command succeeds while
removing nothing — the collection is returned unchanged (and no removal
count is reported) — and the whole invocation then saves the unchanged
collection back to the file. -/
theorem c10_clear_unconfirmed_frame :
    ∀ (tasks : List Task) (fs : FileState),
      handle_clear_tasks tasks false = (tasks, none) ∧
      (load_tasks fs = .ok tasks →
        main_run fs (Commands.clear false) = .ok (save_tasks tasks)) := by
  intro tasks fs
  refine ⟨rfl, ?_⟩
  intro h
  simp [main_run, h, dispatch, handle_clear_tasks, Bind.bind, Except.bind,
    Pure.pure, Except.pure]

/-- Witness for C10 at a concrete saved one-task collection. -/
theorem c10_witness :
    handle_clear_tasks [Task.new 1 "a" none] false = ([Task.new 1 "a" none], none) ∧
    main_run (save_tasks [Task.new 1 "a" none]) (Commands.clear false) =
      .ok (save_tasks [Task.new 1 "a" none]) :=
  ⟨(c10_clear_unconfirmed_frame [Task.new 1 "a" none]
      (save_tasks [Task.new 1 "a" none])).1,
   (c10_clear_unconfirmed_frame [Task.new 1 "a" none]
      (save_tasks [Task.new 1 "a" none])).2 (load_save _)⟩

/-- C8: `load_tasks` yields the empty collection (not an error) when the
file is absent, yields the deserialized collection when the file is
present and well-formed, and fails — always with a `TomlDeserialize`
error carrying a cause — exactly when the file is present and its
contents do not deserialize into the expected shape. -/
theorem c8_load_behavior :
    load_tasks FileState.absent = .ok [] ∧
    (∀ (v : TomlValue) (ts : List Task), decode_task_list v = some ts →
      load_tasks (FileState.wellFormed v) = .ok ts) ∧
    (∀ fs : FileState,
      (∃ c, load_tasks fs = .error (.tomlDeserialize c)) ↔
      (fs ≠ FileState.absent ∧
        ¬ ∃ v ts, fs = FileState.wellFormed v ∧ decode_task_list v = some ts)) ∧
    (∀ (fs : FileState) (e : AppError), load_tasks fs = .error e →
      ∃ c, e = .tomlDeserialize c) := by
  refine ⟨rfl, ?_, ?_, ?_⟩
  · intro v ts h
    simp [load_tasks, h]
  · intro fs
    cases fs with
    | absent =>
      constructor
      · rintro ⟨c, hc⟩; cases hc
      · rintro ⟨h, -⟩; exact absurd rfl h
    | malformed msg =>
      constructor
      · intro _
        refine ⟨(fun h => nomatch h), ?_⟩
        rintro ⟨v, ts, h, -⟩
        exact nomatch h
      · intro _
        exact ⟨msg, rfl⟩
    | wellFormed v =>
      cases hdec : decode_task_list v with
      | some ts =>
        constructor
        · rintro ⟨c, hc⟩
          rw [load_tasks, hdec] at hc
          cases hc
        · rintro ⟨-, habs⟩
          exact absurd ⟨v, ts, rfl, hdec⟩ habs
      | none =>
        constructor
        · intro _
          refine ⟨(fun h => nomatch h), ?_⟩
          rintro ⟨v', ts, hv, hts⟩
          cases hv
          rw [hdec] at hts
          cases hts
        · intro _
          exact ⟨_, by rw [load_tasks, hdec]⟩
  · intro fs e h
    cases fs with
    | absent => cases h
    | malformed msg =>
      cases h
      exact ⟨msg, rfl⟩
    | wellFormed v =>
      rw [load_tasks] at h
      cases hdec : decode_task_list v with
      | some ts => rw [hdec] at h; cases h
      | none =>
        rw [hdec] at h
        cases h
        exact ⟨_, rfl⟩

/-- Witness for C8: a present well-formed file loads its tasks, a
malformed file is a `TomlDeserialize` failure. -/
theorem c8_witness :
    load_tasks (FileState.wellFormed (encode_task_list [Task.new 1 "a" none])) =
      .ok [Task.new 1 "a" none] ∧
    (∃ c, load_tasks (FileState.malformed "unexpected character") =
      .error (.tomlDeserialize c)) ∧
    (∃ c, AppError.tomlDeserialize "unexpected character" = .tomlDeserialize c) :=
  ⟨c8_load_behavior.2.1 _ _ (decode_encode_tasks [Task.new 1 "a" none]),
   (c8_load_behavior.2.2.1 (FileState.malformed "unexpected character")).2
     ⟨(fun h => nomatch h), by rintro ⟨v, ts, h, -⟩; exact nomatch h⟩,
   c8_load_behavior.2.2.2 (FileState.malformed "unexpected character") _ rfl⟩

/-- C7: completion-toggle and remove succeed exactly when some task in the
collection carries the requested id; on an absent id both fail with
`TaskNotFound` carrying that very id, and the retain pass of remove leaves
the collection unchanged. -/
theorem c7_not_found_iff :
    ∀ (tasks : List Task) (id : Nat) (status : Bool),
      ((∃ t ∈ tasks, t.id = id) →
        (∃ ts2, handle_mark_task_completion tasks id status = .ok ts2) ∧
        (∃ ts2, handle_remove_task tasks id = .ok ts2)) ∧
      ((¬ ∃ t ∈ tasks, t.id = id) →
        handle_mark_task_completion tasks id status = .error (.taskNotFound id) ∧
        handle_remove_task tasks id = .error (.taskNotFound id) ∧
        tasks.filter (fun task => task.id ≠ id) = tasks) := by
  intro tasks id status
  constructor
  · rintro ⟨t, ht, hid⟩
    constructor
    · obtain ⟨l1, t', l2, heq, h2, h3⟩ := exists_first_match ⟨t, ht, hid⟩
      subst heq
      exact ⟨_, by rw [handle_mark_task_completion, mark_first_at status h2 h3]⟩
    · exact ⟨tasks.filter (fun task => task.id ≠ id), by
        simp only [handle_remove_task]
        rw [if_pos (filter_length_lt_of_mem ht hid)]⟩
  · intro hno
    have hall : ∀ t ∈ tasks, t.id ≠ id := fun t ht hid => hno ⟨t, ht, hid⟩
    have hfilter := filter_ne_of_forall hall
    refine ⟨?_, ?_, hfilter⟩
    · rw [handle_mark_task_completion, mark_first_eq_none.2 hall]
    · simp only [handle_remove_task]
      rw [hfilter, if_neg (lt_irrefl _)]

/-- Witness for C7: a present id succeeds, an absent id fails with
`TaskNotFound` of that id, for both operations. -/
theorem c7_witness :
    (∃ ts2, handle_mark_task_completion [Task.new 1 "a" none] 1 true = .ok ts2) ∧
    (∃ ts2, handle_remove_task [Task.new 1 "a" none] 1 = .ok ts2) ∧
    handle_mark_task_completion [Task.new 1 "a" none] 2 true =
      .error (.taskNotFound 2) ∧
    handle_remove_task [Task.new 1 "a" none] 2 = .error (.taskNotFound 2) :=
  ⟨((c7_not_found_iff [Task.new 1 "a" none] 1 true).1
      ⟨Task.new 1 "a" none, by simp, rfl⟩).1,
   ((c7_not_found_iff [Task.new 1 "a" none] 1 true).1
      ⟨Task.new 1 "a" none, by simp, rfl⟩).2,
   ((c7_not_found_iff [Task.new 1 "a" none] 2 true).2 (by decide)).1,
   ((c7_not_found_iff [Task.new 1 "a" none] 2 true).2 (by decide)).2.1⟩

/-- C6: on a collection containing the requested id, setting completion
touches only the first task with that id, and only its `completed` field
(id, description, due date, every other task, and the order are
unchanged); setting the value it already holds is a no-op success, and
setting then restoring the old value returns the exact original
collection. -/
theorem c6_set_completion_frame :
    ∀ (tasks : List Task) (id : Nat) (b : Bool),
      (∃ t ∈ tasks, t.id = id) →
      ∃ l1 t l2,
        tasks = l1 ++ t :: l2 ∧ t.id = id ∧ (∀ u ∈ l1, u.id ≠ id) ∧
        handle_mark_task_completion tasks id b =
          .ok (l1 ++ t.mark_completion b :: l2) ∧
        (t.completed = b → handle_mark_task_completion tasks id b = .ok tasks) ∧
        (∀ ts2, handle_mark_task_completion tasks id b = .ok ts2 →
          handle_mark_task_completion ts2 id t.completed = .ok tasks) := by
  intro tasks id b h
  obtain ⟨l1, t, l2, heq, hid, hl1⟩ := exists_first_match h
  subst heq
  have hmark : handle_mark_task_completion (l1 ++ t :: l2) id b =
      .ok (l1 ++ t.mark_completion b :: l2) := by
    rw [handle_mark_task_completion, mark_first_at b hid hl1]
  refine ⟨l1, t, l2, rfl, hid, hl1, hmark, ?_, ?_⟩
  · intro hb
    have hsame : t.mark_completion b = t := by
      obtain ⟨i, s, d, c⟩ := t
      cases hb
      rfl
    rw [hmark, hsame]
  · intro ts2 hts2
    rw [hmark] at hts2
    injection hts2 with h2
    subst h2
    have hid2 : (t.mark_completion b).id = id := hid
    have hrestore : (t.mark_completion b).mark_completion t.completed = t := by
      obtain ⟨i, s, d, c⟩ := t
      rfl
    rw [handle_mark_task_completion, mark_first_at t.completed hid2 hl1, hrestore]

/-- Witness for C6 at a concrete one-task collection. -/
theorem c6_witness :
    ∃ l1 t l2,
      ([Task.new 1 "a" none] : List Task) = l1 ++ t :: l2 ∧
      handle_mark_task_completion [Task.new 1 "a" none] 1 true =
        .ok (l1 ++ t.mark_completion true :: l2) := by
  obtain ⟨l1, t, l2, h1, _, _, h4, _, _⟩ :=
    c6_set_completion_frame [Task.new 1 "a" none] 1 true
      ⟨Task.new 1 "a" none, by simp, rfl⟩
  exact ⟨l1, t, l2, h1, h4⟩

/-- C5 fails as stated: `remove` is a retain pass deleting every task
carrying the id, not only the first.  On the two-task collection with the
duplicate id 1, removing id 1 yields the empty list, although the claim
says the second task — distinct from the first — should have remained. -/
theorem c5_counterexample :
    handle_remove_task [Task.mk 1 "a" none false, Task.mk 1 "b" none false] 1 =
      .ok [] ∧
    (Task.mk 1 "b" none false).id = 1 ∧
    Task.mk 1 "b" none false ≠ Task.mk 1 "a" none false ∧
    ([] : List Task) ≠ [Task.mk 1 "b" none false] :=
  ⟨rfl, rfl, by decide, by decide⟩

/-- C5 amended: on a collection whose ids are distinct (the collection
invariant), removing a present id removes exactly the first — and only —
task with that id, leaving the other tasks, their fields and their
relative order unchanged. -/
theorem c5_remove_first_amended :
    ∀ (tasks : List Task) (id : Nat),
      (tasks.map Task.id).Nodup →
      (∃ t ∈ tasks, t.id = id) →
      ∃ l1 t l2,
        tasks = l1 ++ t :: l2 ∧ t.id = id ∧ (∀ u ∈ l1, u.id ≠ id) ∧
        handle_remove_task tasks id = .ok (l1 ++ l2) := by
  intro tasks id hnodup h
  obtain ⟨l1, t, l2, heq, hid, hl1⟩ := exists_first_match h
  subst heq
  have hmem : t ∈ l1 ++ t :: l2 :=
    List.mem_append_right _ (List.mem_cons_self _ _)
  have hl2 : ∀ u ∈ l2, u.id ≠ id := by
    rw [List.map_append, List.map_cons, List.nodup_middle] at hnodup
    have hnotmem := (List.nodup_cons.1 hnodup).1
    intro u hu hueq
    exact hnotmem (List.mem_append_right _
      (List.mem_map.2 ⟨u, hu, hueq.trans hid.symm⟩))
  have hfilter : (l1 ++ t :: l2).filter (fun task => task.id ≠ id) = l1 ++ l2 := by
    rw [List.filter_append, List.filter_cons, if_neg (by simp [hid]),
      filter_ne_of_forall hl1, filter_ne_of_forall hl2]
  refine ⟨l1, t, l2, rfl, hid, hl1, ?_⟩
  simp only [handle_remove_task]
  rw [if_pos (filter_length_lt_of_mem hmem hid), hfilter]

/-- Witness for the amended C5 at a concrete two-task collection. -/
theorem c5_witness :
    ∃ l1 t l2,
      ([Task.new 1 "a" none, Task.new 2 "b" none] : List Task) = l1 ++ t :: l2 ∧
      t.id = 2 ∧
      handle_remove_task [Task.new 1 "a" none, Task.new 2 "b" none] 2 =
        .ok (l1 ++ l2) := by
  obtain ⟨l1, t, l2, h1, h2, _, h4⟩ :=
    c5_remove_first_amended [Task.new 1 "a" none, Task.new 2 "b" none] 2
      (by decide) ⟨Task.new 2 "b" none, by simp, rfl⟩
  exact ⟨l1, t, l2, h1, h2, h4⟩

/-- C3 fails as stated: removing the task with the maximal id and then
creating reuses the removed id even though the collection did not become
empty.  From `[{id 1}, {id 2}]`, removing id 2 succeeds and leaves the
non-empty `[{id 1}]`, and the following create assigns id 2 again. -/
theorem c3_counterexample :
    handle_remove_task [Task.mk 1 "a" none false, Task.mk 2 "b" none false] 2 =
      .ok [Task.mk 1 "a" none false] ∧
    ([Task.mk 1 "a" none false] : List Task) ≠ [] ∧
    handle_add_task [Task.mk 1 "a" none false] "c" none =
      .ok [Task.mk 1 "a" none false, Task.mk 2 "c" none false] ∧
    (Task.mk 2 "c" none false).id = 2 :=
  ⟨rfl, by decide, rfl, rfl⟩

/-- C3 amended: after a successful `remove(id)`, the removed id no longer
occurs in the collection and the next create assigns
`max remaining id + 1` — id 1 when the removal emptied the collection —
so the removed id is never reused when some remaining task's id is at
least the removed id; only a removed id exceeding every remaining id (such
as the collection's maximum) can be reassigned. -/
theorem c3_remove_then_create_amended :
    ∀ (tasks : List Task) (id : Nat) (ts2 : List Task)
      (description : String) (due_date : Option NaiveDate),
      handle_remove_task tasks id = .ok ts2 →
      ∃ newTask,
        handle_add_task ts2 description due_date = .ok (ts2 ++ [newTask]) ∧
        newTask.id = max_id ts2 + 1 ∧
        (∀ u ∈ ts2, u.id ≠ id) ∧
        (ts2 = [] → newTask.id = 1) ∧
        ((∃ u ∈ ts2, id ≤ u.id) → newTask.id ≠ id) := by
  intro tasks id ts2 description due_date hrem
  simp only [handle_remove_task] at hrem
  split_ifs at hrem with hc
  injection hrem with hrem
  refine ⟨Task.new (max_id ts2 + 1) description due_date, rfl, rfl, ?_, ?_, ?_⟩
  · intro u hu
    rw [← hrem] at hu
    have := (List.mem_filter.1 hu).2
    simpa using this
  · rintro rfl; rfl
  · rintro ⟨u, hu, hle⟩
    have hmax : u.id ≤ max_id ts2 := le_max_id hu
    show max_id ts2 + 1 ≠ id
    omega

/-- Witness for the amended C3: after removing id 1 from a two-task
collection, the next create does not reuse id 1. -/
theorem c3_witness :
    ∃ newTask,
      handle_add_task [Task.new 2 "b" none] "c" none =
        .ok ([Task.new 2 "b" none] ++ [newTask]) ∧
      newTask.id ≠ 1 := by
  obtain ⟨nt, h1, _, _, _, h5⟩ :=
    c3_remove_then_create_amended [Task.new 1 "a" none, Task.new 2 "b" none] 1
      [Task.new 2 "b" none] "c" none rfl
  exact ⟨nt, h1, h5 ⟨Task.new 2 "b" none, by simp, by decide⟩⟩

/-- C4: starting from a collection with distinct ids, every operation
(add, completion-toggle, remove, clear) yields a collection with distinct
ids, and any sequence of create calls — whatever the descriptions and due
dates — appends tasks whose assigned ids are strictly increasing and
never collide with existing ones. -/
theorem c4_distinct_ids_invariant :
    ∀ tasks : List Task, (tasks.map Task.id).Nodup →
      (∀ d due ts2, handle_add_task tasks d due = .ok ts2 →
        (ts2.map Task.id).Nodup) ∧
      (∀ id b ts2, handle_mark_task_completion tasks id b = .ok ts2 →
        (ts2.map Task.id).Nodup) ∧
      (∀ id ts2, handle_remove_task tasks id = .ok ts2 →
        (ts2.map Task.id).Nodup) ∧
      (∀ yes, (((handle_clear_tasks tasks yes).1).map Task.id).Nodup) ∧
      (∀ ps, ((run_adds tasks ps).map Task.id).Nodup ∧
        List.Chain' (· < ·) (((run_adds tasks ps).map Task.id).drop tasks.length)) := by
  intro tasks hnodup
  refine ⟨?_, ?_, ?_, ?_, ?_⟩
  · intro d due ts2 h
    injection h with h
    subst h
    rw [List.map_append, List.nodup_append]
    refine ⟨hnodup, List.nodup_singleton _, ?_⟩
    intro a ha hb
    obtain ⟨t, ht, rfl⟩ := List.mem_map.1 ha
    have hle := le_max_id ht
    have hb2 : t.id = max_id tasks + 1 := by simpa [Task.new] using hb
    omega
  · intro id b ts2 h
    rw [handle_mark_task_completion] at h
    cases hm : mark_first tasks id b with
    | some ts3 =>
      rw [hm] at h
      injection h with h
      subst h
      rw [mark_first_map_id hm]
      exact hnodup
    | none =>
      rw [hm] at h
      cases h
  · intro id ts2 h
    simp only [handle_remove_task] at h
    split_ifs at h with hc
    injection h with h
    subst h
    exact hnodup.sublist ((List.filter_sublist _).map _)
  · intro yes
    cases yes with
    | false => exact hnodup
    | true => exact List.nodup_nil
  · intro ps
    obtain ⟨extra, h1, h2, h3⟩ := run_adds_spec ps tasks
    have hpair : (extra.map Task.id).Pairwise (· < ·) :=
      List.chain'_iff_pairwise.1 h2
    constructor
    · rw [h1, List.map_append, List.nodup_append]
      refine ⟨hnodup, hpair.imp ne_of_lt, ?_⟩
      intro a ha hb
      obtain ⟨t, ht, rfl⟩ := List.mem_map.1 ha
      obtain ⟨u, hu, huid⟩ := List.mem_map.1 hb
      have h4 := h3 u hu
      have h5 := le_max_id ht
      omega
    · rw [h1, List.map_append,
        List.drop_left' (by rw [List.length_map] : (tasks.map Task.id).length = tasks.length)]
      exact h2

/-- Witness for C4: two creates from the empty collection give distinct,
strictly increasing ids. -/
theorem c4_witness :
    ((run_adds [] [("a", none), ("b", none)]).map Task.id).Nodup ∧
    List.Chain' (· < ·)
      (((run_adds [] [("a", none), ("b", none)]).map Task.id).drop
        (List.length ([] : List Task))) :=
  (c4_distinct_ids_invariant [] List.nodup_nil).2.2.2.2 [("a", none), ("b", none)]

end TaskManager
